import Mathlib

/-!
Verification development for the Ren-C context (frame) subsystem and the
sequence splice algorithm, shallowly embedded from `src/core/c-frame.c` and
`src/core/f-modify.c`.

Contexts are modelled as a pair of a value list ("varlist") and a pointer
into a heap of keylists, so that keylist sharing (pointer identity and the
`KEYLIST_FLAG_SHARED` flag) is observable.  Series primitives that live
outside this repository (Copy_Array_Shallow, Extend_Series, Expand_Series,
Remove_Series_Units) are modelled from the spec's interface description
(growable sequence with shallow copy, capacity extension, gap insertion and
unit removal); `Extend_Series` reserves capacity without changing the live
contents, so it is a no-op on the modelled content.
-/

set_option autoImplicit false

/-- A key ("typeset") entry: symbol id, canonical symbol id, and the flags
relevant to this development (`TYPESET_FLAG_HIDDEN`, `TYPESET_FLAG_LOOKBACK`,
`TYPESET_FLAG_LOCKED`).  The 64-bit type bitset is carried as a `Nat`. -/
structure TypesetKey where
  sym : Nat
  canon : Nat
  bits : Nat := 0
  hidden : Bool := false
  lookback : Bool := false
  locked : Bool := false
  deriving Repr, DecidableEq

/-- The rootkey sentinel placed in slot `[0]` of every keylist
(`Val_Init_Typeset(..., ALL_64, SYM_0)`). -/
def rootKey : TypesetKey := { sym := 0, canon := 0 }

/-- A keylist array: the key slots (slot 0 is the rootkey), the
`KEYLIST_FLAG_SHARED` flag, and the `misc.meta` pointer (modelled as an
optional identifier). -/
structure Keylist where
  keys : List TypesetKey
  shared : Bool
  meta : Option Nat
  deriving Repr, DecidableEq

/-- The heap of keylist arrays; a keylist "pointer" is an index into this
list, and a fresh allocation appends at the end. -/
structure KlHeap where
  arrs : List Keylist
  deriving Repr, DecidableEq

/-- Dereference a keylist pointer. -/
def KlHeap.get (h : KlHeap) (i : Nat) : Keylist :=
  h.arrs.getD i { keys := [], shared := false, meta := none }

/-- Overwrite the keylist array at pointer `i`. -/
def KlHeap.set (h : KlHeap) (i : Nat) (kl : Keylist) : KlHeap :=
  { arrs := h.arrs.set i kl }

/-- Allocate a fresh keylist array, returning its pointer. -/
def KlHeap.alloc (h : KlHeap) (kl : Keylist) : KlHeap × Nat :=
  ({ arrs := h.arrs ++ [kl] }, h.arrs.length)

/-- Values stored in a context's varlist, as needed by the context claims:
the self-referential header value (rootvar), an integer, or void. -/
inductive CtxVal where
  | ctxHeader
  | intV (n : Int)
  | voidV
  deriving Repr, DecidableEq

/-- A context: its varlist contents (slot 0 is the rootvar) and the pointer
to its keylist (`REBSER.misc` link). -/
structure Ctx where
  vars : List CtxVal
  keylist : Nat
  deriving Repr, DecidableEq

/-- `CTX_META`: the meta object lives on the keylist. -/
def Ctx.meta (h : KlHeap) (c : Ctx) : Option Nat :=
  (h.get c.keylist).meta

/-- `INIT_CONTEXT_META`: writes the meta pointer onto the context's keylist. -/
def initContextMeta (h : KlHeap) (c : Ctx) (meta : Option Nat) : KlHeap :=
  h.set c.keylist { h.get c.keylist with meta := meta }

/-- `Copy_Context_Shallow_Extra` (c-frame.c): shallow-copies the varlist; with
`extra == 0` the destination is pointed at the source's keylist and
`INIT_CTX_KEYLIST_SHARED` sets `KEYLIST_FLAG_SHARED` on that (now shared)
array; with `extra > 0` a fresh keylist is copied
(`Copy_Array_Extra_Shallow`) and installed with `INIT_CTX_KEYLIST_UNIQUE`
(no shared flag).  The source's meta object is preserved onto the
destination's keylist by the final `INIT_CONTEXT_META`. -/
def Copy_Context_Shallow_Extra (h : KlHeap) (src : Ctx) (extra : Nat) :
    KlHeap × Ctx :=
  let meta := Ctx.meta h src
  if extra = 0 then
    let dest : Ctx := { vars := src.vars, keylist := src.keylist }
    -- INIT_CTX_KEYLIST_SHARED: flag the keylist as shared
    let h1 := h.set src.keylist { h.get src.keylist with shared := true }
    let h2 := initContextMeta h1 dest meta
    (h2, dest)
  else
    -- Copy_Array_Extra_Shallow: fresh array, same live keys, extra capacity
    let (h1, kid) := h.alloc
      { keys := (h.get src.keylist).keys, shared := false, meta := none }
    let dest : Ctx := { vars := src.vars, keylist := kid }
    let h2 := initContextMeta h1 dest meta
    (h2, dest)

/-- `Expand_Context_Keylist_Core` (c-frame.c): no-op when `delta == 0`; when
the keylist is `KEYLIST_FLAG_SHARED`, breaks away from the sharing group by
copying the keylist (preserving the meta object), managing the copy, and
installing it `UNIQUE` on this context; otherwise extends the unique keylist
in place (`Extend_Series` — capacity only, live contents unchanged).
Returns whether existing keys were invalidated. -/
def Expand_Context_Keylist_Core (h : KlHeap) (context : Ctx) (delta : Nat) :
    KlHeap × Ctx × Bool :=
  if delta = 0 then (h, context, false)
  else
    let kl := h.get context.keylist
    if kl.shared then
      let meta := kl.meta
      let (h1, kid) := h.alloc { keys := kl.keys, shared := false, meta := meta }
      (h1, { context with keylist := kid }, true)
    else
      (h, context, false)

/-- `Expand_Context` (c-frame.c): extends the (never shared) varlist in place
(`Extend_Series` — capacity only), then runs `Expand_Context_Keylist_Core`. -/
def Expand_Context (h : KlHeap) (context : Ctx) (delta : Nat) : KlHeap × Ctx :=
  let (h1, c1, _) := Expand_Context_Keylist_Core h context delta
  (h1, c1)

/-- `CTX_LEN`: number of keys, excluding the rootkey slot. -/
def Ctx.len (h : KlHeap) (c : Ctx) : Nat :=
  (h.get c.keylist).keys.length - 1

/-- `Grab_Collected_Keylist_Managed` (c-frame.c): given the collection buffer
(rootkey included) and an optional `prior` context, returns `prior`'s own
keylist when the buffer holds exactly `CTX_LEN(prior) + 1` entries, and
otherwise a freshly allocated shallow copy of the buffer.  In both cases the
returned keylist's `misc.meta` is cleared. -/
def Grab_Collected_Keylist_Managed (h : KlHeap) (bufCollect : List TypesetKey)
    (prior : Option Ctx) : KlHeap × Nat :=
  match prior with
  | some p =>
    if bufCollect.length = Ctx.len h p + 1 then
      let kid := p.keylist
      (h.set kid { h.get kid with meta := none }, kid)
    else
      let (h1, kid) := h.alloc { keys := bufCollect, shared := false, meta := none }
      (h1, kid)
  | none =>
      let (h1, kid) := h.alloc { keys := bufCollect, shared := false, meta := none }
      (h1, kid)

theorem KlHeap.get_set_self (h : KlHeap) (i : Nat) (kl : Keylist)
    (hi : i < h.arrs.length) : (h.set i kl).get i = kl := by
  simp [KlHeap.get, KlHeap.set, List.getD, List.getElem?_set_eq_of_lt _ hi]

theorem KlHeap.get_set_ne (h : KlHeap) (i j : Nat) (kl : Keylist)
    (hij : i ≠ j) : (h.set i kl).get j = h.get j := by
  simp [KlHeap.get, KlHeap.set, List.getD, List.getElem?_set_ne hij]

theorem KlHeap.length_set (h : KlHeap) (i : Nat) (kl : Keylist) :
    (h.set i kl).arrs.length = h.arrs.length := by
  simp [KlHeap.set]

theorem KlHeap.get_alloc_self (h : KlHeap) (kl : Keylist) :
    (h.alloc kl).1.get (h.alloc kl).2 = kl := by
  simp [KlHeap.get, KlHeap.alloc, List.getD, List.getElem?_append_right]

theorem KlHeap.get_alloc_old (h : KlHeap) (kl : Keylist) (j : Nat)
    (hj : j < h.arrs.length) : (h.alloc kl).1.get j = h.get j := by
  simp [KlHeap.get, KlHeap.alloc, List.getD, List.getElem?_append_left hj]

/-- C1: with `extra == 0` the copy shares the source's keylist (pointer
identical, `KEYLIST_FLAG_SHARED` set on it, so both contexts see the SHARED
mark); with `extra > 0` it gets a distinct, freshly allocated keylist with
the shared flag clear (UNIQUE). -/
theorem copy_context_shallow_extra_keylist_sharing
    (h : KlHeap) (src : Ctx) (extra : Nat)
    (hvalid : src.keylist < h.arrs.length) :
    (extra = 0 →
      (Copy_Context_Shallow_Extra h src extra).2.keylist = src.keylist ∧
      ((Copy_Context_Shallow_Extra h src extra).1.get src.keylist).shared = true) ∧
    (extra ≠ 0 →
      (Copy_Context_Shallow_Extra h src extra).2.keylist ≠ src.keylist ∧
      ((Copy_Context_Shallow_Extra h src extra).1.get
        (Copy_Context_Shallow_Extra h src extra).2.keylist).shared = false) := by
  constructor
  · intro h0
    subst h0
    refine ⟨by simp [Copy_Context_Shallow_Extra], ?_⟩
    simp [Copy_Context_Shallow_Extra, initContextMeta,
      KlHeap.get_set_self, KlHeap.length_set, hvalid]
  · intro hne
    have hfresh :
        (Copy_Context_Shallow_Extra h src extra).2.keylist = h.arrs.length := by
      simp [Copy_Context_Shallow_Extra, if_neg hne, KlHeap.alloc]
    constructor
    · rw [hfresh]; exact fun hc => absurd (hc ▸ hvalid) (lt_irrefl _)
    · simp [Copy_Context_Shallow_Extra, initContextMeta, if_neg hne,
        KlHeap.get_set_self, KlHeap.get_alloc_self, KlHeap.alloc,
        KlHeap.get, KlHeap.set, List.getD,
        List.getElem?_set_eq_of_lt, List.getElem?_append_right]

/-- Closed witness for `copy_context_shallow_extra_keylist_sharing` at a
concrete heap and context, for both the `extra = 0` and `extra = 2` cases. -/
theorem copy_context_shallow_extra_keylist_sharing_witness :
    (0 : Nat) < 1 ∧
    ((Copy_Context_Shallow_Extra
        { arrs := [{ keys := [rootKey], shared := false, meta := some 7 }] }
        { vars := [CtxVal.ctxHeader], keylist := 0 } 0).2.keylist = 0 ∧
      ((Copy_Context_Shallow_Extra
        { arrs := [{ keys := [rootKey], shared := false, meta := some 7 }] }
        { vars := [CtxVal.ctxHeader], keylist := 0 } 0).1.get 0).shared = true) ∧
    ((Copy_Context_Shallow_Extra
        { arrs := [{ keys := [rootKey], shared := false, meta := some 7 }] }
        { vars := [CtxVal.ctxHeader], keylist := 0 } 2).2.keylist ≠ 0 ∧
      ((Copy_Context_Shallow_Extra
        { arrs := [{ keys := [rootKey], shared := false, meta := some 7 }] }
        { vars := [CtxVal.ctxHeader], keylist := 0 } 2).1.get
        (Copy_Context_Shallow_Extra
        { arrs := [{ keys := [rootKey], shared := false, meta := some 7 }] }
        { vars := [CtxVal.ctxHeader], keylist := 0 } 2).2.keylist).shared = false) :=
  ⟨by decide,
   (copy_context_shallow_extra_keylist_sharing
      { arrs := [{ keys := [rootKey], shared := false, meta := some 7 }] }
      { vars := [CtxVal.ctxHeader], keylist := 0 } 0 (by decide)).1 rfl,
   (copy_context_shallow_extra_keylist_sharing
      { arrs := [{ keys := [rootKey], shared := false, meta := some 7 }] }
      { vars := [CtxVal.ctxHeader], keylist := 0 } 2 (by decide)).2 (by decide)⟩

theorem KlHeap.get_append_new (h : KlHeap) (kl : Keylist) :
    KlHeap.get { arrs := h.arrs ++ [kl] } h.arrs.length = kl := by
  simp [KlHeap.get, List.getD, List.getElem?_append_right]

theorem KlHeap.get_append_old (h : KlHeap) (kl : Keylist) (j : Nat)
    (hj : j < h.arrs.length) :
    KlHeap.get { arrs := h.arrs ++ [kl] } j = h.get j := by
  simp [KlHeap.get, List.getD, List.getElem?_append_left hj]

/-- C2: expanding a context whose keylist is SHARED leaves the shared keylist
array byte-for-byte unchanged (so every other context holding it is
unaffected); the context is rebound to a freshly allocated copy that is
UNIQUE (shared flag clear), has the same keys, and preserves the meta
pointer. -/
theorem expand_context_shared_keylist_cow
    (h : KlHeap) (c : Ctx) (delta : Nat)
    (hvalid : c.keylist < h.arrs.length)
    (hshared : (h.get c.keylist).shared = true)
    (hdelta : 0 < delta) :
    (Expand_Context h c delta).1.get c.keylist = h.get c.keylist ∧
    (Expand_Context h c delta).2.keylist ≠ c.keylist ∧
    ((Expand_Context h c delta).1.get (Expand_Context h c delta).2.keylist).shared
      = false ∧
    ((Expand_Context h c delta).1.get (Expand_Context h c delta).2.keylist).keys
      = (h.get c.keylist).keys ∧
    ((Expand_Context h c delta).1.get (Expand_Context h c delta).2.keylist).meta
      = (h.get c.keylist).meta := by
  have hd : delta ≠ 0 := Nat.pos_iff_ne_zero.mp hdelta
  have hstep : Expand_Context h c delta =
      (KlHeap.mk (h.arrs ++
        [Keylist.mk (h.get c.keylist).keys false (h.get c.keylist).meta]),
       Ctx.mk c.vars h.arrs.length) := by
    simp [Expand_Context, Expand_Context_Keylist_Core, hd, hshared, KlHeap.alloc]
  rw [hstep]
  refine ⟨KlHeap.get_append_old h _ _ hvalid, (Nat.ne_of_lt hvalid).symm, ?_, ?_, ?_⟩
  all_goals rw [show (Ctx.mk c.vars h.arrs.length).keylist
    = h.arrs.length from rfl, KlHeap.get_append_new]

def klS : Keylist := { keys := [rootKey], shared := true, meta := some 3 }
def heapS : KlHeap := { arrs := [klS] }
def ctxS : Ctx := { vars := [CtxVal.ctxHeader], keylist := 0 }

/-- Closed witness for `expand_context_shared_keylist_cow`: a heap with one
shared keylist, expanded by 1. -/
theorem expand_context_shared_keylist_cow_witness :
    (ctxS.keylist < heapS.arrs.length ∧ (heapS.get ctxS.keylist).shared = true ∧
      (0 : Nat) < 1) ∧
    ((Expand_Context heapS ctxS 1).1.get ctxS.keylist = heapS.get ctxS.keylist ∧
      (Expand_Context heapS ctxS 1).2.keylist ≠ ctxS.keylist ∧
      ((Expand_Context heapS ctxS 1).1.get
        (Expand_Context heapS ctxS 1).2.keylist).shared = false ∧
      ((Expand_Context heapS ctxS 1).1.get
        (Expand_Context heapS ctxS 1).2.keylist).keys
        = (heapS.get ctxS.keylist).keys ∧
      ((Expand_Context heapS ctxS 1).1.get
        (Expand_Context heapS ctxS 1).2.keylist).meta
        = (heapS.get ctxS.keylist).meta) :=
  ⟨⟨by decide, by decide, by decide⟩,
   expand_context_shared_keylist_cow heapS ctxS 1 (by decide) (by decide) (by decide)⟩

/-- C9: when the collection buffer's length (rootkey included) equals
`CTX_LEN(prior) + 1`, `Grab_Collected_Keylist_Managed` hands back `prior`'s
own keylist (same pointer, keys untouched); otherwise it materializes a
brand-new keylist (freshly allocated pointer, so distinct from `prior`'s)
whose contents are copied from the collection buffer. -/
theorem grab_collected_keylist_reuse_or_new
    (h : KlHeap) (buf : List TypesetKey) (p : Ctx)
    (hvalid : p.keylist < h.arrs.length) :
    (buf.length = Ctx.len h p + 1 →
      (Grab_Collected_Keylist_Managed h buf (some p)).2 = p.keylist ∧
      ((Grab_Collected_Keylist_Managed h buf (some p)).1.get p.keylist).keys
        = (h.get p.keylist).keys) ∧
    (buf.length ≠ Ctx.len h p + 1 →
      (Grab_Collected_Keylist_Managed h buf (some p)).2 ≠ p.keylist ∧
      (Grab_Collected_Keylist_Managed h buf (some p)).2 = h.arrs.length ∧
      ((Grab_Collected_Keylist_Managed h buf (some p)).1.get
        (Grab_Collected_Keylist_Managed h buf (some p)).2).keys = buf) := by
  constructor
  · intro heq
    refine ⟨by simp [Grab_Collected_Keylist_Managed, heq], ?_⟩
    simp only [Grab_Collected_Keylist_Managed, if_pos heq]
    rw [KlHeap.get_set_self _ _ _ hvalid]
  · intro hne
    have hstep : Grab_Collected_Keylist_Managed h buf (some p) =
        (KlHeap.mk (h.arrs ++ [Keylist.mk buf false none]), h.arrs.length) := by
      simp [Grab_Collected_Keylist_Managed, if_neg hne, KlHeap.alloc]
    rw [hstep]
    exact ⟨(Nat.ne_of_lt hvalid).symm, rfl, by rw [KlHeap.get_append_new]⟩

def klG : Keylist := Keylist.mk [rootKey, { sym := 5, canon := 5 }] false none
def heapG : KlHeap := { arrs := [klG] }
def ctxG : Ctx := { vars := [CtxVal.ctxHeader, CtxVal.intV 1], keylist := 0 }

/-- Closed witness for `grab_collected_keylist_reuse_or_new`: a prior context
with one (non-root) key and a collection buffer of matching length. -/
theorem grab_collected_keylist_reuse_or_new_witness :
    ctxG.keylist < heapG.arrs.length ∧
    (klG.keys.length = Ctx.len heapG ctxG + 1 →
      (Grab_Collected_Keylist_Managed heapG klG.keys (some ctxG)).2 = ctxG.keylist ∧
      ((Grab_Collected_Keylist_Managed heapG klG.keys (some ctxG)).1.get
        ctxG.keylist).keys = (heapG.get ctxG.keylist).keys) :=
  ⟨by decide,
   (grab_collected_keylist_reuse_or_new heapG klG.keys ctxG (by decide)).1⟩

/-- `ALL_64`: the 64-bit typeset admitting every datatype. -/
def ALL_64 : Nat := 2 ^ 64 - 1

/-- `~FLAGIT_KIND(REB_0)`: all datatypes except void (bit 0 cleared),
the initial typeset given to keys collected from words. -/
def NOT_VOID_64 : Nat := 2 ^ 64 - 2

/-- State shared by the collection routines: the process-wide Bind_Table
(canonical symbol id → bind index, `0` = not collected yet) and the shared
`BUF_COLLECT` collection buffer (rootkey in slot 0). -/
structure CollectSt where
  binds : Nat → Nat
  buf : List TypesetKey

/-- The `COLLECT_*` flag bits used by `Collect_Context_Inner_Loop`. -/
structure CollectFlags where
  anyWord : Bool := false
  deep : Bool := false
  noDup : Bool := false

/-- Point update of the Bind_Table. -/
def bindsUpdate (b : Nat → Nat) (c v : Nat) : Nat → Nat :=
  fun x => if x = c then v else b x

/-- The duplicate-word cleanup in `Collect_Context_Inner_Loop`: walk the
(possibly expanded) `BUF_COLLECT` and zero the Bind_Table entry of every
key's canon. -/
def bindsResetFromBuf (b : Nat → Nat) (buf : List TypesetKey) : Nat → Nat :=
  fun x => if x ∈ buf.map TypesetKey.canon then 0 else b x

/-- A scanned value as seen by the collection loop: an ANY-WORD! (with its
`IS_SET_WORD` status, symbol and canon), a nested ANY-EVAL-BLOCK!, or any
other value. -/
inductive RVal where
  | word (setWord : Bool) (sym canon : Nat)
  | block (items : List RVal)
  | other

/-- `Collect_Context_Inner_Loop` (c-frame.c): scans values; an unseen word
(set-word, or any word under `COLLECT_ANY_WORD`) is recorded in the
Bind_Table at the buffer's current length and appended to `BUF_COLLECT` as
a typeset key; a word already in the Bind_Table under `COLLECT_NO_DUP`
first zeroes every Bind_Table entry reachable from `BUF_COLLECT`, empties
the buffer, and only then fails with the duplicate-variable error (the
error carries the global state at failure).  Recursion into sub-blocks
happens under `COLLECT_DEEP`.  A structural fuel argument bounds the
recursion depth; `none` means the fuel ran out. -/
def Collect_Context_Inner_Loop (flags : CollectFlags) :
    Nat → CollectSt → List RVal → Option (Except CollectSt CollectSt)
  | 0, _, _ => none
  | _ + 1, st, [] => some (.ok st)
  | fuel + 1, st, .word sw sym canon :: rest =>
      if st.binds canon = 0 then
        if sw || flags.anyWord then
          Collect_Context_Inner_Loop flags fuel
            (CollectSt.mk (bindsUpdate st.binds canon st.buf.length)
              (st.buf ++ [{ sym := sym, canon := canon, bits := NOT_VOID_64 }]))
            rest
        else
          Collect_Context_Inner_Loop flags fuel st rest
      else
        if flags.noDup then
          some (.error (CollectSt.mk (bindsResetFromBuf st.binds st.buf) []))
        else
          Collect_Context_Inner_Loop flags fuel st rest
  | fuel + 1, st, .block items :: rest =>
      if flags.deep then
        match Collect_Context_Inner_Loop flags fuel st items with
        | none => none
        | some (.error e) => some (.error e)
        | some (.ok st1) => Collect_Context_Inner_Loop flags fuel st1 rest
      else
        Collect_Context_Inner_Loop flags fuel st rest
  | fuel + 1, st, .other :: rest => Collect_Context_Inner_Loop flags fuel st rest

/-- Invariant of the collection pass: every nonzero Bind_Table entry is the
canon of some key in `BUF_COLLECT` (each write to the table is paired with
an append to the buffer). -/
def bindsCovered (st : CollectSt) : Prop :=
  ∀ c, st.binds c ≠ 0 → c ∈ st.buf.map TypesetKey.canon

theorem bindsCovered_step (st : CollectSt) (sym canon : Nat)
    (hcov : bindsCovered st) :
    bindsCovered (CollectSt.mk (bindsUpdate st.binds canon st.buf.length)
      (st.buf ++ [{ sym := sym, canon := canon, bits := NOT_VOID_64 }])) := by
  intro c hc
  simp only [List.map_append, List.mem_append]
  by_cases hceq : c = canon
  · right; simp [hceq]
  · left
    apply hcov
    simpa [bindsUpdate, hceq] using hc

theorem collect_inner_loop_ok_covered (flags : CollectFlags) :
    ∀ (fuel : Nat) (st : CollectSt) (vals : List RVal) (st' : CollectSt),
    bindsCovered st →
    Collect_Context_Inner_Loop flags fuel st vals = some (.ok st') →
    bindsCovered st' := by
  intro fuel
  induction fuel with
  | zero => intro st vals st' _ hrun; simp [Collect_Context_Inner_Loop] at hrun
  | succ n ih =>
    intro st vals st' hcov hrun
    match vals with
    | [] =>
      simp only [Collect_Context_Inner_Loop] at hrun
      cases hrun
      exact hcov
    | .word sw sym canon :: rest =>
      simp only [Collect_Context_Inner_Loop] at hrun
      by_cases h0 : st.binds canon = 0
      · simp only [h0, if_pos rfl] at hrun
        by_cases hsw : (sw || flags.anyWord) = true
        · rw [if_pos hsw] at hrun
          exact ih _ rest st' (bindsCovered_step st sym canon hcov) hrun
        · rw [if_neg hsw] at hrun
          exact ih st rest st' hcov hrun
      · rw [if_neg h0] at hrun
        by_cases hnd : flags.noDup = true
        · rw [if_pos hnd] at hrun
          cases hrun
        · rw [if_neg hnd] at hrun
          exact ih st rest st' hcov hrun
    | .block items :: rest =>
      simp only [Collect_Context_Inner_Loop] at hrun
      by_cases hdeep : flags.deep = true
      · rw [if_pos hdeep] at hrun
        match hinner : Collect_Context_Inner_Loop flags n st items with
        | none => rw [hinner] at hrun; cases hrun
        | some (.error e) => rw [hinner] at hrun; cases hrun
        | some (.ok st1) =>
          rw [hinner] at hrun
          exact ih st1 rest st' (ih st items st1 hcov hinner) hrun
      · rw [if_neg hdeep] at hrun
        exact ih st rest st' hcov hrun
    | .other :: rest =>
      simp only [Collect_Context_Inner_Loop] at hrun
      exact ih st rest st' hcov hrun

/-- C3: if a collection pass whose starting state satisfies the pairing
invariant fails (which only the duplicate-word check under `COLLECT_NO_DUP`
can cause), then at the moment the error propagates the Bind_Table is
entirely zero and the Collection Buffer is empty: the rollback runs before
the failure is raised. -/
theorem collect_inner_loop_dup_rollback (flags : CollectFlags)
    (fuel : Nat) (st : CollectSt) (vals : List RVal) (st' : CollectSt)
    (hcov : bindsCovered st)
    (herr : Collect_Context_Inner_Loop flags fuel st vals
      = some (.error st')) :
    (∀ c, st'.binds c = 0) ∧ st'.buf = [] := by
  induction fuel generalizing st vals with
  | zero => simp [Collect_Context_Inner_Loop] at herr
  | succ n ih =>
    match vals with
    | [] =>
      simp only [Collect_Context_Inner_Loop] at herr
      cases herr
    | .word sw sym canon :: rest =>
      simp only [Collect_Context_Inner_Loop] at herr
      by_cases h0 : st.binds canon = 0
      · simp only [h0, if_pos rfl] at herr
        by_cases hsw : (sw || flags.anyWord) = true
        · rw [if_pos hsw] at herr
          exact ih _ rest (bindsCovered_step st sym canon hcov) herr
        · rw [if_neg hsw] at herr
          exact ih _ rest hcov herr
      · rw [if_neg h0] at herr
        by_cases hnd : flags.noDup = true
        · rw [if_pos hnd] at herr
          cases herr
          refine ⟨?_, rfl⟩
          intro c
          by_cases hmem : c ∈ st.buf.map TypesetKey.canon
          · simp [bindsResetFromBuf, hmem]
          · simp only [bindsResetFromBuf, if_neg hmem]
            by_contra hne
            exact hmem (hcov c hne)
        · rw [if_neg hnd] at herr
          exact ih _ rest hcov herr
    | .block items :: rest =>
      simp only [Collect_Context_Inner_Loop] at herr
      by_cases hdeep : flags.deep = true
      · rw [if_pos hdeep] at herr
        match hinner : Collect_Context_Inner_Loop flags n st items with
        | none => rw [hinner] at herr; cases herr
        | some (.error e) =>
          rw [hinner] at herr
          cases herr
          exact ih _ items hcov hinner
        | some (.ok st1) =>
          rw [hinner] at herr
          exact ih _ rest
            (collect_inner_loop_ok_covered flags n st items st1 hcov hinner) herr
      · rw [if_neg hdeep] at herr
        exact ih _ rest hcov herr
    | .other :: rest =>
      simp only [Collect_Context_Inner_Loop] at herr
      exact ih _ rest hcov herr

def tk5 : TypesetKey := { sym := 5, canon := 5, bits := NOT_VOID_64 }
def c3flags : CollectFlags := { noDup := true }
def c3st0 : CollectSt := CollectSt.mk (fun _ => 0) [rootKey]
def c3errSt : CollectSt :=
  CollectSt.mk (bindsResetFromBuf (bindsUpdate (fun _ => 0) 5 1) [rootKey, tk5]) []

/-- Closed witness for `collect_inner_loop_dup_rollback`: scanning
`[x: x:]` under `COLLECT_NO_DUP` fails, leaving the Bind_Table all-zero and
the Collection Buffer empty. -/
theorem collect_inner_loop_dup_rollback_witness :
    bindsCovered c3st0 ∧ (∀ c, c3errSt.binds c = 0) ∧ c3errSt.buf = [] :=
  ⟨fun _ h => absurd rfl h,
   collect_inner_loop_dup_rollback c3flags 4 c3st0
     [.word true 5 5, .word true 5 5] c3errSt (fun _ h => absurd rfl h) rfl⟩

/-- `SYM_SELF`: the symbol id of the always-present hidden "self" key. -/
def SYM_SELF : Nat := 1

/-- A context as used by the merge/resolve algorithms: the `CTX_TYPE` tag,
the key slots `1..` (rootkey excluded) and the var slots `1..` (rootvar
excluded). -/
structure MCtx where
  ctype : Nat
  keys : List TypesetKey
  vars : List CtxVal
  deriving Repr, DecidableEq

/-- `Collect_Context_Keys` (c-frame.c): seeds the Bind_Table and
`BUF_COLLECT` from an existing context's keys.  Without `check_dups` every
key is bulk-copied (`memcpy`) and assigned the next bind index; with
`check_dups` a key whose canon is already in the Bind_Table is skipped.
Either way a collected key's bind index equals its position in the
buffer. -/
def Collect_Context_Keys (checkDups : Bool) : CollectSt → List TypesetKey → CollectSt
  | st, [] => st
  | st, k :: rest =>
      if checkDups ∧ st.binds k.canon ≠ 0 then
        Collect_Context_Keys checkDups st rest
      else
        Collect_Context_Keys checkDups
          (CollectSt.mk (bindsUpdate st.binds k.canon st.buf.length)
            (st.buf ++ [k]))
          rest

def findWordIdx (sym canon : Nat) (always : Bool) : List TypesetKey → Nat → Nat
  | [], _ => 0
  | k :: rest, n =>
      if sym = k.sym ∨ canon = k.canon then
        (if always = false ∧ k.hidden = true then 0 else n)
      else findWordIdx sym canon always rest (n + 1)

/-- `Find_Word_In_Context` (c-frame.c): linear scan comparing the exact and
the canonical symbol; returns the 1-based slot index or 0; a hidden key
yields 0 unless `always`. -/
def Find_Word_In_Context (context : MCtx) (sym canon : Nat) (always : Bool) : Nat :=
  findWordIdx sym canon always context.keys 1

/-- The "copy parent2 values" loop of `Merge_Contexts_Selfish`: each of
parent2's vars is written into the child slot named by the Bind_Table
(`n = binds[VAL_TYPESET_CANON(key)]`; slot `n` is list index `n - 1`). -/
def scatterP2 (binds : Nat → Nat) : List TypesetKey → List CtxVal → List CtxVal → List CtxVal
  | [], _, vars => vars
  | _, [], vars => vars
  | k :: ks, v :: vs, vars => scatterP2 binds ks vs (vars.set (binds k.canon - 1) v)

/-- `Merge_Contexts_Selfish` (c-frame.c): collect parent1's keys without
duplicate checking, then parent2's keys with duplicate checking; the child
keylist is a copy of `BUF_COLLECT`.  Parent1's vars are copied positionally
(`memcpy`), the slots beyond them start uninitialized (modelled as void;
every such slot is filled by the parent2 scatter), then parent2's vars are
scattered through the Bind_Table so its values win on symbol collision.
`Clonify_Values_Len_Managed` deep-clones series-valued slots and
`Rebind_Context_Deep` rewrites word bindings inside them; both are the
identity on the modelled value domain (ints, context headers, void).
Finally the "self" slot (located with `Find_Word_In_Context`, hidden keys
included) is overwritten with a copy of the child's header value; index 0
("not found") names the rootvar, where writing the header value changes
nothing. -/
def Merge_Contexts_Selfish (parent1 parent2 : MCtx) : MCtx :=
  let st0 := CollectSt.mk (fun _ => 0) [rootKey]
  let st1 := Collect_Context_Keys false st0 parent1.keys
  let st2 := Collect_Context_Keys true st1 parent2.keys
  let keys := st2.buf.drop 1
  let vars0 := parent1.vars ++
    List.replicate (keys.length - parent1.vars.length) CtxVal.voidV
  let vars1 := scatterP2 st2.binds parent2.keys parent2.vars vars0
  let selfIdx := Find_Word_In_Context (MCtx.mk parent1.ctype keys vars1)
    SYM_SELF SYM_SELF true
  let vars2 := if selfIdx = 0 then vars1
    else vars1.set (selfIdx - 1) CtxVal.ctxHeader
  MCtx.mk parent1.ctype keys vars2

def selfK : TypesetKey :=
  { sym := SYM_SELF, canon := SYM_SELF, bits := ALL_64, hidden := true }
def kx : TypesetKey := { sym := 10, canon := 10, bits := NOT_VOID_64 }
def ky : TypesetKey := { sym := 11, canon := 11, bits := NOT_VOID_64 }
def kz : TypesetKey := { sym := 12, canon := 12, bits := NOT_VOID_64 }

def P1m : MCtx := MCtx.mk 0 [selfK, kx, ky]
  [CtxVal.ctxHeader, CtxVal.intV 1, CtxVal.intV 2]
def P2m : MCtx := MCtx.mk 0 [selfK, ky, kz]
  [CtxVal.ctxHeader, CtxVal.intV 3, CtxVal.intV 4]

/-- C5: merging `P1{x:1, y:2}` with `P2{y:3, z:4}` (each carrying its hidden
"self" key) yields keys in the order parent1's keys first, then parent2's
new keys — `[self, x, y, z]` — with values `x = 1`, `y = 3`, `z = 4`
(parent2 wins on collision), the self slot holding the child's header
value, and exactly one "self" key in the result. -/
theorem merge_contexts_selfish_example :
    Merge_Contexts_Selfish P1m P2m =
      MCtx.mk 0 [selfK, kx, ky, kz]
        [CtxVal.ctxHeader, CtxVal.intV 1, CtxVal.intV 3, CtxVal.intV 4] ∧
    (Merge_Contexts_Selfish P1m P2m).keys.countP
      (fun k => k.canon = SYM_SELF) = 1 := by
  constructor <;> decide

/-- An element of an `only_words` block: a WORD!/SET-WORD! (with canon), or
any other value (silently skipped by the code). -/
inductive OWItem where
  | w (sym canon : Nat)
  | other

/-- The `only_words` argument of `Resolve_Context`: absent (VOID), an
explicit block of words, or an integer index into the target ("only the new
words"). -/
inductive OnlyWords where
  | voidW
  | blockW (items : List OWItem)
  | intW (i : Nat)

def OnlyWords.isVoidW : OnlyWords → Bool
  | .voidW => true
  | _ => false

/-- Point update of the (signed) Bind_Table used by `Resolve_Context`. -/
def bindsUpdI (b : Nat → Int) (c : Nat) (v : Int) : Nat → Int :=
  fun x => if x = c then v else b x

/-- Tag phase, limited-resolve form: mark the canon of every target key from
the start slot on with `-1`. -/
def tagKeys : (Nat → Int) → List TypesetKey → Nat → Int
  | b, [] => b
  | b, k :: rest => tagKeys (bindsUpdI b k.canon (-1)) rest

/-- Tag phase, word-block form: mark each WORD!/SET-WORD! canon with `-1`
and count them; other values are skipped without error. -/
def tagWords : (Nat → Int) × Int → List OWItem → (Nat → Int) × Int
  | bn, [] => bn
  | (b, n), .w _ canon :: rest => tagWords (bindsUpdI b canon (-1), n + 1) rest
  | (b, n), .other :: rest => tagWords (b, n) rest

/-- `i` as computed from `only_words` (`VAL_INT32`; `0` is bumped to `1`;
non-integer modes leave it `0`). -/
def resolveStartIdx (ow : OnlyWords) : Nat :=
  match ow with
  | .intW k => if k = 0 then 1 else k
  | _ => 0

/-- The Bind_Table and word count after the tagging phase of
`Resolve_Context`. -/
def resolvePhase1 (target : MCtx) (ow : OnlyWords) : (Nat → Int) × Int :=
  let i := resolveStartIdx ow
  if i ≠ 0 then
    (tagKeys (fun _ => 0) (target.keys.drop (i - 1)), (target.keys.length : Int))
  else
    match ow with
    | .blockW items => tagWords ((fun _ => 0), 0) items
    | _ => ((fun _ => 0), 0)

/-- The source-marking loop: walking source keys with `n = 1, 2, ...`, a
canon is (re)bound to its source index when `only_words` is VOID or the
canon is already tagged. -/
def markSource (voidOW : Bool) : (Nat → Int) → List TypesetKey → Nat → (Nat → Int)
  | b, [], _ => b
  | b, k :: rest, n =>
      if voidOW = true ∨ b k.canon ≠ 0 then
        markSource voidOW (bindsUpdI b k.canon n) rest (n + 1)
      else
        markSource voidOW b rest (n + 1)

/-- The Bind_Table state `Resolve_Context` has built when its copy loop
starts: tag phase followed by source marking.  A positive entry is a source
slot index, `-1` marks a selected symbol absent from the source. -/
def resolveMarks (target source : MCtx) (ow : OnlyWords) : Nat → Int :=
  markSource ow.isVoidW (resolvePhase1 target ow).1 source.keys 1

/-- The "foreach word in target, copy the correct value from source" loop of
`Resolve_Context`: a key whose canon has a nonzero Bind_Table entry `m` is
consumed (entry zeroed); unless the key is locked, the slot is written when
`all` is set or the existing value is void — with void when `m < 0` (no
value in source), else with the source's value at slot `m`, propagating the
source key's LOOKBACK flag onto the target key.  Out-of-range `m` (never
produced by `resolveMarks`) reads the defaults. -/
def resolveCopyLoop (source : MCtx) (all : Bool) :
    (Nat → Int) → List TypesetKey → List CtxVal →
      (Nat → Int) × List TypesetKey × List CtxVal
  | b, [], vs => (b, [], vs)
  | b, ks, [] => (b, ks, [])
  | b, k :: ks, v :: vs =>
      let m := b k.canon
      if m ≠ 0 then
        let b2 := bindsUpdI b k.canon 0
        if k.locked = false ∧ (all = true ∨ v = CtxVal.voidV) then
          if m < 0 then
            let r := resolveCopyLoop source all b2 ks vs
            (r.1, k :: r.2.1, CtxVal.voidV :: r.2.2)
          else
            let sk := source.keys.getD (m.toNat - 1) rootKey
            let sv := source.vars.getD (m.toNat - 1) CtxVal.voidV
            let r := resolveCopyLoop source all b2 ks vs
            (r.1, { k with lookback := sk.lookback } :: r.2.1, sv :: r.2.2)
        else
          let r := resolveCopyLoop source all b2 ks vs
          (r.1, k :: r.2.1, v :: r.2.2)
      else
        let r := resolveCopyLoop source all b ks vs
        (r.1, k :: r.2.1, v :: r.2.2)

/-- The expansion-append phase of `Resolve_Context`: every source key whose
canon still has a nonzero Bind_Table entry is appended as a brand-new key —
`Append_Context_Core` builds it as a fresh all-types typeset over the canon
symbol, carrying the source key's LOOKBACK flag — paired with the source's
value.  Returns the appended key and value suffixes. -/
def resolveAppendLoop : (Nat → Int) → List TypesetKey → List CtxVal →
    List TypesetKey × List CtxVal
  | _, [], _ => ([], [])
  | _, _, [] => ([], [])
  | b, k :: ks, v :: vs =>
      if b k.canon ≠ 0 then
        let r := resolveAppendLoop (bindsUpdI b k.canon 0) ks vs
        ({ sym := k.canon, canon := k.canon, bits := ALL_64,
           lookback := k.lookback } :: r.1, v :: r.2)
      else
        resolveAppendLoop b ks vs

/-- `Resolve_Context` (c-frame.c): copies values from `source` into `target`
for the symbol subset selected by `only_words`.  In the integer mode the
call is a no-op when the start index exceeds the target's length.  The tag
phase and source-marking build the Bind_Table (`resolveMarks`), the copy
loop rewrites the scanned target slots, and — when `expand` survives the
pre-count — new source-only symbols are appended (`Expand_Context` itself
only reserves capacity).  The `FAIL_IF_LOCKED_CONTEXT` guard (which aborts
before any mutation) and the final Bind_Table reset (scratch state, not
part of the result) are outside the modelled result. -/
def Resolve_Context (target source : MCtx) (ow : OnlyWords)
    (all expand : Bool) : MCtx :=
  let i := resolveStartIdx ow
  if i > target.keys.length then target
  else
    let p1 := resolvePhase1 target ow
    let n1 := p1.2
    let expand2 :=
      if expand = true ∧ n1 > 0 then
        decide (n1 - (target.keys.countP (fun k => p1.1 k.canon ≠ 0) : Int) > 0)
      else expand
    let b2 := resolveMarks target source ow
    let start := if i ≠ 0 then i else 1
    let r := resolveCopyLoop source all b2
      (target.keys.drop (start - 1)) (target.vars.drop (start - 1))
    let keys1 := target.keys.take (start - 1) ++ r.2.1
    let vars1 := target.vars.take (start - 1) ++ r.2.2
    if expand2 then
      let app := resolveAppendLoop r.1 source.keys source.vars
      MCtx.mk target.ctype (keys1 ++ app.1) (vars1 ++ app.2)
    else
      MCtx.mk target.ctype keys1 vars1

theorem listGetD_take {α : Type} (l : List α) (n j : Nat) (d : α)
    (h : j < n) : (l.take n).getD j d = l.getD j d := by
  simp [List.getD_eq_getElem?_getD, List.getElem?_take_of_lt h]

theorem listGetD_drop {α : Type} (l : List α) (n j : Nat) (d : α) :
    (l.drop n).getD j d = l.getD (n + j) d := by
  simp [List.getD_eq_getElem?_getD, List.getElem?_drop]

theorem resolveCopyLoop_length (source : MCtx) (all : Bool) :
    ∀ (ks : List TypesetKey) (b : Nat → Int) (vs : List CtxVal),
    ((resolveCopyLoop source all b ks vs).2.2).length = vs.length := by
  intro ks
  induction ks with
  | nil => intro b vs; simp [resolveCopyLoop]
  | cons k ks ih =>
    intro b vs
    cases vs with
    | nil => simp [resolveCopyLoop]
    | cons v vs =>
      simp only [resolveCopyLoop]
      split
      · split
        · split
          · simpa using ih _ vs
          · simpa using ih _ vs
        · simpa using ih _ vs
      · simpa using ih _ vs

/-- With `all` false, the copy loop cannot write a slot whose existing value
is non-void: the write is guarded by `(all || IS_VOID(var))`. -/
theorem resolveCopyLoop_nonclobber (source : MCtx) :
    ∀ (ks : List TypesetKey) (b : Nat → Int) (vs : List CtxVal) (j : Nat),
    vs.getD j CtxVal.voidV ≠ CtxVal.voidV →
    ((resolveCopyLoop source false b ks vs).2.2).getD j CtxVal.voidV
      = vs.getD j CtxVal.voidV := by
  intro ks
  induction ks with
  | nil => intro b vs j _; simp [resolveCopyLoop]
  | cons k ks ih =>
    intro b vs j hnv
    cases vs with
    | nil => simp [resolveCopyLoop]
    | cons v vs =>
      cases j with
      | zero =>
        have hv : v ≠ CtxVal.voidV := by simpa using hnv
        simp only [resolveCopyLoop]
        split
        · rw [if_neg]
          · simp
          · simp [hv]
        · simp
      | succ j =>
        have hnv2 : vs.getD j CtxVal.voidV ≠ CtxVal.voidV := by simpa using hnv
        simp only [resolveCopyLoop]
        split
        · split
          · split
            · simpa using ih _ vs j hnv2
            · simpa using ih _ vs j hnv2
          · simpa using ih _ vs j hnv2
        · simpa using ih _ vs j hnv2

/-- With `all` set and pairwise-distinct canons, a scanned slot whose canon
carries a positive Bind_Table mark `m` and whose key is not locked is
overwritten with the source's value at slot `m` (the loop consumes each
canon exactly once, so earlier iterations cannot disturb it). -/
theorem resolveCopyLoop_overwrite (source : MCtx) :
    ∀ (ks : List TypesetKey) (b : Nat → Int) (vs : List CtxVal) (j : Nat),
    (ks.map TypesetKey.canon).Nodup →
    j < ks.length → j < vs.length →
    0 < b ((ks.getD j rootKey).canon) →
    (ks.getD j rootKey).locked = false →
    ((resolveCopyLoop source true b ks vs).2.2).getD j CtxVal.voidV
      = source.vars.getD ((b ((ks.getD j rootKey).canon)).toNat - 1) CtxVal.voidV := by
  intro ks
  induction ks with
  | nil => intro b vs j _ hjk; exact absurd hjk (by simp)
  | cons k ks ih =>
    intro b vs j hnodup hjk hjv hbpos hlock
    cases vs with
    | nil => exact absurd hjv (by simp)
    | cons v vs =>
      cases j with
      | zero =>
        have hb0 : ¬ (b k.canon = 0) := by
          have := hbpos; simp only [List.getD_cons_zero] at this; omega
        have hbneg : ¬ (b k.canon < 0) := by
          have := hbpos; simp only [List.getD_cons_zero] at this; omega
        have hlock0 : k.locked = false := by simpa using hlock
        simp [resolveCopyLoop, hb0, hbneg, hlock0]
      | succ j =>
        have hnodup' : (ks.map TypesetKey.canon).Nodup :=
          (List.nodup_cons.mp (by simpa using hnodup)).2
        have hknotin : k.canon ∉ ks.map TypesetKey.canon :=
          (List.nodup_cons.mp (by simpa using hnodup)).1
        have hjlen : j < ks.length := by simpa using hjk
        have hjv' : j < vs.length := by simpa using hjv
        have hmem : (ks.getD j rootKey) ∈ ks := by
          rw [List.getD_eq_getElem _ _ hjlen]
          exact List.getElem_mem _
        have hne : (ks.getD j rootKey).canon ≠ k.canon := fun hc =>
          hknotin (hc ▸ List.mem_map_of_mem TypesetKey.canon hmem)
        have hbpos' : 0 < b ((ks.getD j rootKey).canon) := by
          simpa using hbpos
        have hlock' : (ks.getD j rootKey).locked = false := by
          simpa using hlock
        have goalrec : ∀ b2 : Nat → Int,
            b2 ((ks.getD j rootKey).canon) = b ((ks.getD j rootKey).canon) →
            ((resolveCopyLoop source true b2 ks vs).2.2).getD j CtxVal.voidV
              = source.vars.getD
                  ((b ((ks.getD j rootKey).canon)).toNat - 1) CtxVal.voidV := by
          intro b2 hb2
          rw [← hb2]
          exact ih b2 vs j hnodup' hjlen hjv' (hb2 ▸ hbpos') hlock'
        have hb2 : bindsUpdI b k.canon 0 ((ks.getD j rootKey).canon)
            = b ((ks.getD j rootKey).canon) := by
          simp only [bindsUpdI]
          rw [if_neg hne]
        simp only [resolveCopyLoop]
        split
        · split
          · split
            · simpa using goalrec _ hb2
            · simpa using goalrec _ hb2
          · simpa using goalrec _ hb2
        · simpa using goalrec _ rfl

theorem resolve_vars1_length (target source : MCtx) (ow : OnlyWords)
    (all : Bool) (s : Nat) :
    (target.vars.take (s - 1) ++
      (resolveCopyLoop source all (resolveMarks target source ow)
        (target.keys.drop (s - 1)) (target.vars.drop (s - 1))).2.2).length
      = target.vars.length := by
  simp [resolveCopyLoop_length]
  omega

theorem resolve_context_nonclobber_aux (target source : MCtx) (ow : OnlyWords)
    (expand : Bool) (j : Nat)
    (hnv : target.vars.getD j CtxVal.voidV ≠ CtxVal.voidV) :
    (Resolve_Context target source ow false expand).vars.getD j CtxVal.voidV
      = target.vars.getD j CtxVal.voidV := by
  have hjlt : j < target.vars.length := by
    by_contra hge
    exact hnv (List.getD_eq_default _ _ (le_of_not_lt hge))
  simp only [Resolve_Context]
  split
  · rfl
  · set s : Nat := (if resolveStartIdx ow ≠ 0 then resolveStartIdx ow else 1)
      with hs
    have hvars1 : (target.vars.take (s - 1) ++
        (resolveCopyLoop source false (resolveMarks target source ow)
          (target.keys.drop (s - 1)) (target.vars.drop (s - 1))).2.2).getD j
          CtxVal.voidV = target.vars.getD j CtxVal.voidV := by
      by_cases hjs : j < s - 1
      · rw [List.getD_append _ _ _ _ (by simp [List.length_take]; omega),
          listGetD_take _ _ _ _ hjs]
      · rw [List.getD_append_right _ _ _ _ (by simp [List.length_take]; omega)]
        have hidx : j - (target.vars.take (s - 1)).length = j - (s - 1) := by
          simp [List.length_take]
          omega
        rw [hidx]
        have hdnv : (target.vars.drop (s - 1)).getD (j - (s - 1)) CtxVal.voidV
            ≠ CtxVal.voidV := by
          rw [listGetD_drop]
          have : s - 1 + (j - (s - 1)) = j := by omega
          rw [this]
          exact hnv
        rw [resolveCopyLoop_nonclobber source _ _ _ _ hdnv, listGetD_drop]
        have : s - 1 + (j - (s - 1)) = j := by omega
        rw [this]
    have happend : ∀ app : List CtxVal,
        ((target.vars.take (s - 1) ++ (resolveCopyLoop source false
          (resolveMarks target source ow) (target.keys.drop (s - 1))
          (target.vars.drop (s - 1))).2.2) ++ app).getD j CtxVal.voidV
          = target.vars.getD j CtxVal.voidV := by
      intro app
      rw [List.getD_append _ _ _ _ (by rw [resolve_vars1_length]; exact hjlt)]
      exact hvars1
    split
    · split
      · exact happend _
      · exact hvars1
    · split
      · exact happend _
      · exact hvars1

theorem resolve_context_overwrite_aux (target source : MCtx) (ow : OnlyWords)
    (expand : Bool) (j : Nat) (m : Int)
    (hkv : target.keys.length = target.vars.length)
    (hnd : (target.keys.map TypesetKey.canon).Nodup)
    (hterm : resolveStartIdx ow ≤ target.keys.length)
    (hstart : (if resolveStartIdx ow ≠ 0 then resolveStartIdx ow else 1) - 1 ≤ j)
    (hj : j < target.keys.length)
    (hm : resolveMarks target source ow ((target.keys.getD j rootKey).canon) = m)
    (hmpos : 0 < m)
    (hlock : (target.keys.getD j rootKey).locked = false) :
    (Resolve_Context target source ow true expand).vars.getD j CtxVal.voidV
      = source.vars.getD (m.toNat - 1) CtxVal.voidV := by
  have hterm2 : ¬ resolveStartIdx ow > target.keys.length := not_lt.mpr hterm
  have hjv : j < target.vars.length := hkv ▸ hj
  simp only [Resolve_Context]
  split
  · exact absurd (by assumption) hterm2
  · set s : Nat := (if resolveStartIdx ow ≠ 0 then resolveStartIdx ow else 1)
      with hs
    have hcore : (target.vars.take (s - 1) ++ (resolveCopyLoop source true
        (resolveMarks target source ow) (target.keys.drop (s - 1))
        (target.vars.drop (s - 1))).2.2).getD j CtxVal.voidV
        = source.vars.getD (m.toNat - 1) CtxVal.voidV := by
      rw [List.getD_append_right _ _ _ _ (by simp [List.length_take]; omega)]
      have hidx : j - (target.vars.take (s - 1)).length = j - (s - 1) := by
        simp [List.length_take]
        omega
      rw [hidx]
      have hnd' : ((target.keys.drop (s - 1)).map TypesetKey.canon).Nodup := by
        rw [List.map_drop]
        exact (List.drop_sublist _ _).nodup hnd
      have hkey : (target.keys.drop (s - 1)).getD (j - (s - 1)) rootKey
          = target.keys.getD j rootKey := by
        rw [listGetD_drop]
        congr 1
        omega
      have hlen1 : j - (s - 1) < (target.keys.drop (s - 1)).length := by
        simp [List.length_drop]
        omega
      have hlen2 : j - (s - 1) < (target.vars.drop (s - 1)).length := by
        simp [List.length_drop]
        omega
      rw [resolveCopyLoop_overwrite source _ _ _ _ hnd' hlen1 hlen2
        (by rw [hkey, hm]; exact hmpos) (by rw [hkey]; exact hlock), hkey, hm]
    have happend : ∀ app : List CtxVal,
        ((target.vars.take (s - 1) ++ (resolveCopyLoop source true
          (resolveMarks target source ow) (target.keys.drop (s - 1))
          (target.vars.drop (s - 1))).2.2) ++ app).getD j CtxVal.voidV
          = source.vars.getD (m.toNat - 1) CtxVal.voidV := by
      intro app
      rw [List.getD_append _ _ _ _ (by rw [resolve_vars1_length]; exact hjv)]
      exact hcore
    split
    · split
      · exact happend _
      · exact hcore
    · split
      · exact happend _
      · exact hcore

/-- C6: for every target and source context and symbol selected by
`Resolve_Context` — the scanned range of the target, with the Bind_Table
mark built by the tag and source-marking phases (`resolveMarks`) — with
`all` (copy_all) false a target slot already holding a non-void value is
never overwritten, and with `all` true an unlocked selected slot whose mark
is a positive source index is always overwritten with the source's value
there. -/
theorem resolve_context_clobber_policy :
    (∀ (target source : MCtx) (ow : OnlyWords) (expand : Bool) (j : Nat),
      target.vars.getD j CtxVal.voidV ≠ CtxVal.voidV →
      (Resolve_Context target source ow false expand).vars.getD j CtxVal.voidV
        = target.vars.getD j CtxVal.voidV) ∧
    (∀ (target source : MCtx) (ow : OnlyWords) (expand : Bool) (j : Nat) (m : Int),
      target.keys.length = target.vars.length →
      (target.keys.map TypesetKey.canon).Nodup →
      resolveStartIdx ow ≤ target.keys.length →
      (if resolveStartIdx ow ≠ 0 then resolveStartIdx ow else 1) - 1 ≤ j →
      j < target.keys.length →
      resolveMarks target source ow ((target.keys.getD j rootKey).canon) = m →
      0 < m →
      (target.keys.getD j rootKey).locked = false →
      (Resolve_Context target source ow true expand).vars.getD j CtxVal.voidV
        = source.vars.getD (m.toNat - 1) CtxVal.voidV) :=
  ⟨resolve_context_nonclobber_aux, resolve_context_overwrite_aux⟩

def targetW : MCtx := MCtx.mk 0 [kx, ky] [CtxVal.intV 7, CtxVal.voidV]
def sourceW : MCtx := MCtx.mk 0 [ky, kz] [CtxVal.intV 9, CtxVal.intV 8]

/-- Closed witness for `resolve_context_clobber_policy`: with `all` false
the non-void `x = 7` survives a full resolve; with `all` true the `y` slot
is overwritten with the source's `y = 9`. -/
theorem resolve_context_clobber_policy_witness :
    (targetW.vars.getD 0 CtxVal.voidV ≠ CtxVal.voidV ∧
      (Resolve_Context targetW sourceW OnlyWords.voidW false false).vars.getD 0
        CtxVal.voidV = targetW.vars.getD 0 CtxVal.voidV) ∧
    (0 < (1 : Int) ∧
      (Resolve_Context targetW sourceW OnlyWords.voidW true false).vars.getD 1
        CtxVal.voidV = sourceW.vars.getD ((1 : Int).toNat - 1) CtxVal.voidV) :=
  ⟨⟨by decide, resolve_context_clobber_policy.1 targetW sourceW OnlyWords.voidW
      false 0 (by decide)⟩,
   ⟨by decide, resolve_context_clobber_policy.2 targetW sourceW OnlyWords.voidW
      false 1 1 (by decide) (by decide) (by decide) (by decide) (by decide)
      rfl (by decide) (by decide)⟩⟩

/-- A value as seen by the array splice algorithm: an integer, an
ANY-ARRAY! value (series pointer plus index), the null "no value" sentinel,
or any other value. -/
inductive AVal where
  | intV (n : Int)
  | blockRef (arr : Nat) (index : Nat)
  | nulled
  | other
  deriving Repr, DecidableEq

/-- An array cell: its value and the `NEWLINE_BEFORE` cell flag. -/
structure ACell where
  v : AVal
  newlineBefore : Bool := false
  deriving Repr, DecidableEq

/-- An array: its cells and the `NEWLINE_AT_TAIL` array flag. -/
structure AArr where
  cells : List ACell
  newlineAtTail : Bool := false
  deriving Repr, DecidableEq

/-- The heap of arrays; an array "pointer" is an index into this list. -/
structure AHeap where
  arrs : List AArr
  deriving Repr, DecidableEq

def AHeap.get (h : AHeap) (i : Nat) : AArr :=
  h.arrs.getD i { cells := [] }

def AHeap.set (h : AHeap) (i : Nat) (a : AArr) : AHeap :=
  { arrs := h.arrs.set i a }

/-- The verbs the splice algorithm accepts. -/
inductive Verb where
  | insert
  | append
  | change
  deriving Repr, DecidableEq

/-- `AM_SPLICE`, `AM_PART`, `AM_LINE`. -/
structure AMFlags where
  splice : Bool := false
  part : Bool := false
  line : Bool := false
  deriving Repr, DecidableEq

/-- The global `EMPTY_BLOCK` value (heap slot 0 is reserved for it by the
concrete states used here; the splice claims never read through it). -/
def EMPTY_BLOCK : AVal := AVal.blockRef 0 0

def blankCell : ACell := { v := AVal.other }

/-- The source run the copy loop reads from: a shallow copy made up front
(`Copy_Array_At_Extra_Shallow`, used when the source array *is* the
destination), a live pointer into another heap array, or the single
passed-in value cell. -/
inductive SrcRel where
  | copied (cells : List ACell)
  | inHeap (arr : Nat) (offset : Nat)
  | single (v : AVal)

/-- Dereference `src_rel + index` at loop time (a live pointer reads the
current heap). -/
def SrcRel.read (h : AHeap) : SrcRel → Nat → ACell
  | .copied cells, i => cells.getD i blankCell
  | .inHeap a off, i => (h.get a).cells.getD (off + i) blankCell
  | .single v, _ => { v := v }

/-- `Expand_Series(ser, index, delta)` (series primitive, modelled from the
spec): open a gap of `delta` (uninitialized) cells at `index`. -/
def Expand_Series_At (h : AHeap) (i idx delta : Nat) : AHeap :=
  let a := h.get i
  let cs := a.cells.take idx ++ List.replicate delta blankCell ++ a.cells.drop idx
  h.set i { a with cells := cs }

/-- `Remove_Series_Units` (series primitive, modelled from the spec):
remove `delta` cells at `index`. -/
def Remove_Series_At (h : AHeap) (i idx delta : Nat) : AHeap :=
  let a := h.get i
  h.set i { a with cells := a.cells.take idx ++ a.cells.drop (idx + delta) }

/-- `EXPAND_SERIES_TAIL` (series primitive, modelled from the spec): append
`delta` (uninitialized) cells at the tail. -/
def Expand_Series_Tail (h : AHeap) (i delta : Nat) : AHeap :=
  let a := h.get i
  h.set i { a with cells := a.cells ++ List.replicate delta blankCell }

/-- Write one cell of the destination array. -/
def writeCell (h : AHeap) (i idx : Nat) (c : ACell) : AHeap :=
  let a := h.get i
  h.set i { a with cells := a.cells.set idx c }

/-- `CLEAR_ARRAY_FLAG(dst_arr, NEWLINE_AT_TAIL)`. -/
def clearTailFlag (h : AHeap) (i : Nat) : AHeap :=
  h.set i { h.get i with newlineAtTail := false }

/-- `SET_ARRAY_FLAG(dst_arr, NEWLINE_AT_TAIL)`. -/
def setTailFlag (h : AHeap) (i : Nat) : AHeap :=
  h.set i { h.get i with newlineAtTail := true }

/-- `SET_CELL_FLAG(ARR_AT(dst_arr, idx), NEWLINE_BEFORE)`; on an empty (or
too short) array the C writes the flag onto the END marker, which no cell
observes — a no-op here. -/
def setCellNewline (h : AHeap) (i idx : Nat) : AHeap :=
  match (h.get i).cells.get? idx with
  | none => h
  | some c =>
      let cs := (h.get i).cells.set idx { c with newlineBefore := true }
      h.set i { h.get i with cells := cs }

/-- The inner `for (index = 0; index < ilen; ...)` loop of `Modify_Array`
for one duplicate: `Derelativize` copies each source cell; the first cell
written overall gets `NEWLINE_BEFORE` (and the destination loses
`NEWLINE_AT_TAIL`) when `head_newline`, and the first cell of every later
duplicate gets it when `tail_newline`. -/
def writeElems (srcRel : SrcRel) (headNL tailNL : Bool) (dstId dupIndex : Nat) :
    AHeap → Nat → Nat → Nat → AHeap × Nat
  | h, dstIdx, _, 0 => (h, dstIdx)
  | h, dstIdx, index, rem + 1 =>
      let c0 := SrcRel.read h srcRel index
      let nl := c0.newlineBefore
        || (decide (dupIndex = 0) && decide (index = 0) && headNL)
        || (decide (0 < dupIndex) && decide (index = 0) && tailNL)
      let h1 := writeCell h dstId dstIdx { c0 with newlineBefore := nl }
      let h2 := if dupIndex = 0 ∧ index = 0 ∧ headNL = true
        then clearTailFlag h1 dstId else h1
      writeElems srcRel headNL tailNL dstId dupIndex h2 (dstIdx + 1) (index + 1) rem

/-- The outer `for (dup_index = 0; dup_index < dups; ...)` loop. -/
def writeDups (srcRel : SrcRel) (headNL tailNL : Bool) (dstId ilenN : Nat) :
    AHeap → Nat → Nat → Nat → AHeap × Nat
  | h, dstIdx, _, 0 => (h, dstIdx)
  | h, dstIdx, dupIndex, remDups + 1 =>
      let r := writeElems srcRel headNL tailNL dstId dupIndex h dstIdx 0 ilenN
      writeDups srcRel headNL tailNL dstId ilenN r.1 r.2 (dupIndex + 1) remDups

/-- `Modify_Array` (f-modify.c): the insert/append/change engine for arrays.
Returns the updated heap and the new index (`0` for APPEND, otherwise
`size + dst_idx`).  A CHANGE of the null sentinel is tweaked into a splice
of the (global) empty block; a null source otherwise, or a non-positive dup
count, is a no-op returning the natural index.  APPEND targets the tail and
an out-of-range index is clamped to it.  A spliced source that is the
destination array itself is shallow-copied up front; any other source is
read through a live pointer during the loop.  Newline metadata follows the
code: `head_newline` (insertion at a tail carrying `NEWLINE_AT_TAIL`) moves
that flag onto the first written cell; `tail_newline` (explicit /LINE, or
the spliced source's following-cell/tail newline) marks the first cell of
every duplicate after the first, and after the loop marks the cell after
the insertion (or the array tail flag); an explicit /LINE finally forces
`NEWLINE_BEFORE` onto the array head.  Negative `dst_len`, which callers
never pass, is clamped at the Nat conversions. -/
def Modify_Array (h : AHeap) (verb : Verb) (dstId : Nat) (dstIdx0 : Nat)
    (srcVal : AVal) (flags : AMFlags) (dstLen : Int) (dups : Int) :
    AHeap × Nat :=
  let tail := (h.get dstId).cells.length
  let srcVal1 := if srcVal = AVal.nulled ∧ verb = Verb.change
    then EMPTY_BLOCK else srcVal
  let flags1 := if srcVal = AVal.nulled ∧ verb = Verb.change
    then { flags with splice := true } else flags
  if srcVal1 = AVal.nulled ∨ dups ≤ 0 then
    (h, if verb = Verb.append then 0 else dstIdx0)
  else
    let dstIdx := if verb = Verb.append ∨ dstIdx0 > tail then tail else dstIdx0
    let spliced : Option (Nat × Nat) :=
      if flags1.splice then
        match srcVal1 with
        | AVal.blockRef a i => some (a, i)
        | _ => none  -- the code asserts the spliced source is ANY-ARRAY!
      else none
    let ilenN : Nat :=
      match spliced with
      | some (srcId, srcIndex) =>
          if verb ≠ Verb.change ∧ flags1.part then dstLen.toNat
          else (h.get srcId).cells.length - srcIndex
      | none => 1
    let tailNewline : Bool :=
      match spliced with
      | some (srcId, srcIndex) =>
          if flags1.line then true
          else if srcIndex + ilenN ≥ (h.get srcId).cells.length then
            (h.get srcId).newlineAtTail
          else if ilenN = 0 then false
          else ((h.get srcId).cells.getD (srcIndex + ilenN) blankCell).newlineBefore
      | none => flags1.line
    let srcRel : SrcRel :=
      match spliced with
      | some (srcId, srcIndex) =>
          if dstId = srcId then SrcRel.copied ((h.get srcId).cells.drop srcIndex)
          else SrcRel.inHeap srcId srcIndex
      | none => SrcRel.single srcVal1
    let sizeN := dups.toNat * ilenN
    let headNewline : Bool := decide (dstIdx = tail) && (h.get dstId).newlineAtTail
    let h1 :=
      if verb ≠ Verb.change then Expand_Series_At h dstId dstIdx sizeN
      else if (sizeN : Int) > dstLen then
        Expand_Series_At h dstId dstIdx (sizeN - dstLen.toNat)
      else if (sizeN : Int) < dstLen ∧ flags1.part then
        Remove_Series_At h dstId dstIdx (dstLen.toNat - sizeN)
      else if sizeN + dstIdx > tail then
        Expand_Series_Tail h dstId (sizeN - (tail - dstIdx))
      else h
    let retIdx := if verb = Verb.append then 0 else sizeN + dstIdx
    let r := writeDups srcRel headNewline tailNewline dstId ilenN h1 dstIdx 0
      dups.toNat
    let h3 :=
      if tailNewline then
        if r.2 = ((r.1.get dstId).cells.length) then setTailFlag r.1 dstId
        else setCellNewline r.1 dstId r.2
      else r.1
    let h4 := if flags1.line then setCellNewline h3 dstId 0 else h3
    (h4, retIdx)

theorem AHeap.get_set_arr (h : AHeap) (i : Nat) (a : AArr)
    (hi : i < h.arrs.length) : (h.set i a).get i = a := by
  simp [AHeap.get, AHeap.set, List.getD, List.getElem?_set_eq_of_lt _ hi]

def c4heap : AHeap := { arrs := [ { cells := [] },
  { cells := [ { v := AVal.intV 10 }, { v := AVal.intV 20 },
    { v := AVal.intV 30 } ] } ] }

/-- C4 counterexample: inserting the array `[10, 20, 30]` into itself at
index 1 with `dup_count = 2` does *not* yield `[10,10,20,30,20,30]` — each
of the two duplicates contributes all three source elements, so the result
has nine elements (the claimed output is what a single duplicate gives). -/
theorem modify_array_self_splice_counterexample :
    ((Modify_Array c4heap Verb.insert 1 1 (AVal.blockRef 1 0)
      { splice := true } 0 2).1.get 1).cells.map (fun c => c.v) ≠
      [AVal.intV 10, AVal.intV 10, AVal.intV 20, AVal.intV 30,
       AVal.intV 20, AVal.intV 30] := by decide

/-- C4 (amended): inserting the array `[10, 20, 30]` into itself at index 1
with `dup_count = 2` yields `[10, 10,20,30, 10,20,30, 20,30]`: two intact
copies of the original contents, none corrupted by aliasing, because the
source is shallow-copied before the destination grows. -/
theorem modify_array_self_splice_amended :
    ((Modify_Array c4heap Verb.insert 1 1 (AVal.blockRef 1 0)
      { splice := true } 0 2).1.get 1).cells.map (fun c => c.v) =
      [AVal.intV 10, AVal.intV 10, AVal.intV 20, AVal.intV 30,
       AVal.intV 10, AVal.intV 20, AVal.intV 30,
       AVal.intV 20, AVal.intV 30] := by decide

theorem setCellNewline_head (h : AHeap) (i : Nat)
    (hne : ((setCellNewline h i 0).get i).cells ≠ []) :
    (((setCellNewline h i 0).get i).cells.getD 0 blankCell).newlineBefore
      = true := by
  by_cases hv : i < h.arrs.length
  · cases hc : (h.get i).cells with
    | nil =>
      rw [setCellNewline, hc] at hne
      simp at hne
      exact absurd hc hne
    | cons c rest =>
      rw [setCellNewline, hc]
      simp only [List.get?]
      rw [AHeap.get_set_arr _ _ _ hv]
      simp [hc]
  · have hdef : (h.get i).cells = [] := by
      have hd : h.arrs.getD i { cells := [] } = { cells := [] } :=
        List.getD_eq_default _ _ (le_of_not_lt hv)
      rw [AHeap.get, hd]
    rw [setCellNewline, hdef] at hne
    simp at hne
    exact absurd hdef hne

/-- C10: every `Modify_Array` call with the explicit /LINE flag, a non-null
source and a positive dup count ends by forcing `NEWLINE_BEFORE` onto the
destination array's head element (when one exists), regardless of where the
edit happened. -/
theorem modify_array_line_flag_marks_head (h : AHeap) (verb : Verb)
    (dstId dstIdx0 : Nat) (srcVal : AVal) (flags : AMFlags)
    (dstLen dups : Int)
    (hline : flags.line = true)
    (hsrc : srcVal ≠ AVal.nulled)
    (hdups : 0 < dups)
    (hne : ((Modify_Array h verb dstId dstIdx0 srcVal flags dstLen dups).1.get
      dstId).cells ≠ []) :
    (((Modify_Array h verb dstId dstIdx0 srcVal flags dstLen dups).1.get
      dstId).cells.getD 0 blankCell).newlineBefore = true := by
  have hcond : ¬ (srcVal = AVal.nulled ∧ verb = Verb.change) :=
    fun hc => hsrc hc.1
  have hnogo : ¬ (srcVal = AVal.nulled ∨ dups ≤ 0) := by
    rintro (hc | hd)
    · exact hsrc hc
    · omega
  simp only [Modify_Array, if_neg hcond, if_neg hnogo, if_pos hline] at hne ⊢
  exact setCellNewline_head _ _ hne

/-- Closed witness for `modify_array_line_flag_marks_head`: appending `99`
with /LINE to `[10,20,30]` marks the head element `10`. -/
theorem modify_array_line_flag_marks_head_witness :
    (({ line := true } : AMFlags).line = true ∧
      AVal.intV 99 ≠ AVal.nulled ∧ (0 : Int) < 1 ∧
      ((Modify_Array c4heap Verb.insert 1 3 (AVal.intV 99)
        { line := true } 0 1).1.get 1).cells ≠ []) ∧
    (((Modify_Array c4heap Verb.insert 1 3 (AVal.intV 99)
        { line := true } 0 1).1.get 1).cells.getD 0 blankCell).newlineBefore
      = true :=
  ⟨⟨rfl, by decide, by decide, by decide⟩,
   modify_array_line_flag_marks_head c4heap Verb.insert 1 3 (AVal.intV 99)
     { line := true } 0 1 rfl (by decide) (by decide) (by decide)⟩

/-- A text/binary backing series: its byte content (`SER_USED` is the list
length), the codepoint length tracked in `MISC(s).length` (meaningful only
when `isString`), the `SERIES_FLAG_IS_STRING` flag and write protection. -/
structure StrSeries where
  bytes : List Nat
  strLen : Nat
  isString : Bool
  readonly : Bool := false
  deriving Repr, DecidableEq

/-- An ANY-STRING! or BINARY! value: its series, `VAL_INDEX`, and whether
the value kind is BINARY! (indices are bytes) rather than a string
(indices are codepoints). -/
structure StrVal where
  ser : StrSeries
  index : Nat
  isBinary : Bool
  deriving Repr, DecidableEq

/-- The source values `Modify_String_Or_Binary` is modelled over: the null
sentinel, a CHAR! (its UTF-8 encoding is its payload), or an ANY-STRING!
whose series is distinct from the destination (content bytes plus codepoint
length from the value's index on; sources that are the same series, and the
other kinds, reroute through the mold buffer, which is outside this model's
source domain). -/
inductive MSrc where
  | nulled
  | char (cp : Nat)
  | str (bytes : List Nat) (len : Nat)
  deriving Repr, DecidableEq

/-- UTF-8 encoding of a codepoint (1—4 bytes), as stored in a CHAR!
payload (`VAL_CHAR_ENCODED`). -/
def utf8Encode (cp : Nat) : List Nat :=
  if cp < 0x80 then [cp]
  else if cp < 0x800 then [0xC0 + cp / 64, 0x80 + cp % 64]
  else if cp < 0x10000 then
    [0xE0 + cp / 4096, 0x80 + (cp / 64) % 64, 0x80 + cp % 64]
  else
    [0xF0 + cp / 262144, 0x80 + (cp / 4096) % 64, 0x80 + (cp / 64) % 64,
     0x80 + cp % 64]

/-- Width in bytes of the codepoint whose encoding starts with this lead
byte. -/
def cpWidth (b : Nat) : Nat :=
  if b < 0xC0 then 1 else if b < 0xE0 then 2 else if b < 0xF0 then 3 else 4

/-- `VAL_OFFSET_FOR_INDEX`: byte offset of codepoint index `i`. -/
def offsetForIndex : List Nat → Nat → Nat
  | _, 0 => 0
  | bytes, i + 1 =>
      match bytes with
      | [] => 0
      | b :: rest => cpWidth b + offsetForIndex (rest.drop (cpWidth b - 1)) i

def cpCountFuel : Nat → List Nat → Nat
  | 0, _ => 0
  | _, [] => 0
  | fuel + 1, b :: rest => 1 + cpCountFuel fuel (rest.drop (cpWidth b - 1))

/-- Codepoint count of a UTF-8 byte run. -/
def cpCount (bytes : List Nat) : Nat := cpCountFuel bytes.length bytes

def validUtf8Fuel : Nat → List Nat → Bool
  | 0, l => decide (l = [])
  | _, [] => true
  | fuel + 1, b :: rest =>
      decide (b < 0x80 ∨ (0xC0 ≤ b ∧ b < 0xF5)) &&
      decide ((rest.take (cpWidth b - 1)).length = cpWidth b - 1) &&
      (rest.take (cpWidth b - 1)).all (fun c => decide (0x80 ≤ c ∧ c < 0xC0)) &&
      validUtf8Fuel fuel (rest.drop (cpWidth b - 1))

/-- Structural UTF-8 validity: every lead byte is a legal lead byte and is
followed by exactly the right number of continuation bytes — i.e. no
dangling partial codepoint. -/
def validUtf8 (bytes : List Nat) : Bool := validUtf8Fuel bytes.length bytes

/-- Overwrite the region `[off, off + data.length)` of `l` with `data`
(the memcpy loop's effect). -/
def overwriteAt (l : List Nat) (off : Nat) (data : List Nat) : List Nat :=
  l.take off ++ data ++ l.drop (off + data.length)

/-- `memcpy(dst, src, n)` reads exactly `n` bytes; reading past the model's
source list yields junk, represented as zero padding. -/
def takePad (l : List Nat) (n : Nat) : List Nat :=
  l.take n ++ List.replicate (n - l.length) 0

/-- `Modify_String_Or_Binary` (f-modify.c), over the modelled source domain.
Fails on a read-only destination, or a BINARY! index into the middle of a
codepoint of a string-aliased series.  A null source is a no-op for
APPEND/INSERT (returning 0 resp. the value's index) and a deletion
(splice of the empty text) for CHANGE.  `/PART` on APPEND/INSERT gives the
`limit`; a zero limit or non-positive dup count is a no-op.  The source is
normalized to a flat byte run with both a byte size and a codepoint length
(equal when the destination is not a string series); a nonnegative `limit`
then overrides both with `limit` itself (the in-source "!!! Incorrect for
UTF-8" behavior, reproduced faithfully).  APPEND/INSERT always expand by
the total byte size and add the total codepoint length to `MISC.length`;
CHANGE clamps the replaced part to the available length, expands or removes
by the byte difference, and sets `MISC.length = tail + src_len_total -
part`.  The duplication loop then overwrites the bytes, appending a
newline byte per duplicate under /LINE.  Bookmark cache maintenance (which
never alters content, size or length) is not modelled. -/
def Modify_String_Or_Binary (dst : StrVal) (verb : Verb) (src : MSrc)
    (flags : AMFlags) (part : Int) (dups : Int) :
    Except String (StrSeries × Nat) :=
  if dst.ser.readonly then Except.error "read-only series"
  else if dst.isBinary ∧ dst.ser.isString ∧
      0x80 ≤ dst.ser.bytes.getD dst.index 0 then
    Except.error "Index codepoint to modify string-aliased-BINARY!"
  else
    let tail := if dst.isBinary then dst.ser.bytes.length else dst.ser.strLen
    let dstOff0 := if dst.isBinary then dst.index
      else offsetForIndex dst.ser.bytes dst.index
    if src = MSrc.nulled ∧ verb = Verb.append then Except.ok (dst.ser, 0)
    else if src = MSrc.nulled ∧ verb = Verb.insert then
      Except.ok (dst.ser, dst.index)
    else
      -- CHANGE of a null source behaves like a change to the empty text
      let src1 := if src = MSrc.nulled then MSrc.str [] 0 else src
      let limit : Int := if verb ≠ Verb.change ∧ flags.part then part else -1
      if limit = 0 ∨ dups ≤ 0 then
        Except.ok (dst.ser, if verb = Verb.append then 0 else dst.index)
      else
        let clamp := verb = Verb.append ∨ dst.index > tail
        let dstIdx := if clamp then tail else dst.index
        let dstOff := if clamp then dst.ser.bytes.length else dstOff0
        let srcBytes : List Nat :=
          match src1 with
          | MSrc.char cp => utf8Encode cp
          | MSrc.str bs _ => bs
          | MSrc.nulled => []
        let srcSize0 : Nat :=
          match src1 with
          | MSrc.char cp => (utf8Encode cp).length
          | MSrc.str bs l =>
              if limit < 0 then bs.length
              else offsetForIndex bs (min limit.toNat l)
          | MSrc.nulled => 0
        let srcLen0 : Nat :=
          match src1 with
          | MSrc.char cp =>
              if dst.ser.isString then 1 else (utf8Encode cp).length
          | MSrc.str bs l =>
              if dst.ser.isString then (if limit < 0 then l else min limit.toNat l)
              else (if limit < 0 then bs.length
                else offsetForIndex bs (min limit.toNat l))
          | MSrc.nulled => 0
        let srcSize := if 0 ≤ limit then limit.toNat else srcSize0
        let srcLen := if 0 ≤ limit then limit.toNat else srcLen0
        let srcSizeTotal := (if flags.line then srcSize + 1 else srcSize)
          * dups.toNat
        let srcLenTotal := (if flags.line then srcLen + 1 else srcLen)
          * dups.toNat
        let data := (List.replicate dups.toNat
          (takePad srcBytes srcSize ++ (if flags.line then [10] else []))).flatten
        if verb = Verb.append ∨ verb = Verb.insert then
          let bytes1 := dst.ser.bytes.take dstOff
            ++ List.replicate srcSizeTotal 0 ++ dst.ser.bytes.drop dstOff
          let strLen1 := if dst.ser.isString then tail + srcLenTotal
            else dst.ser.strLen
          let bytesF := overwriteAt bytes1 dstOff data
          Except.ok ({ dst.ser with bytes := bytesF, strLen := strLen1 },
            if verb = Verb.append then 0 else dstIdx + srcLenTotal)
        else
          let part1 : Nat := if flags.part then part.toNat else srcLenTotal
          let dstLenAt := if dst.ser.isString
            then cpCount (dst.ser.bytes.drop dstOff0)
            else dst.ser.bytes.length - dst.index
          let dstSizeAt := if dst.ser.isString
            then dst.ser.bytes.length - dstOff0
            else dst.ser.bytes.length - dst.index
          let part2 := if part1 > dstLenAt then dstLenAt else part1
          let partSize :=
            if part1 > dstLenAt then dstSizeAt
            else if dst.ser.isString
              then offsetForIndex (dst.ser.bytes.drop dstOff0) part1
              else part1
          let bytes2 :=
            if srcSizeTotal > partSize then
              dst.ser.bytes.take dstOff
                ++ List.replicate (srcSizeTotal - partSize) 0
                ++ dst.ser.bytes.drop dstOff
            else if partSize > srcSizeTotal then
              dst.ser.bytes.take dstOff
                ++ dst.ser.bytes.drop (dstOff + (partSize - srcSizeTotal))
            else dst.ser.bytes
          let strLen2 := if dst.ser.isString
            then tail + srcLenTotal - part2 else dst.ser.strLen
          let bytesF := overwriteAt bytes2 dstOff data
          Except.ok ({ dst.ser with bytes := bytesF, strLen := strLen2 },
            dstIdx + srcLenTotal)

def c8dst : StrVal := StrVal.mk
  (StrSeries.mk [0xF0, 0x9F, 0x98, 0x80, 0x61, 0x62, 0x63] 4 true false) 0 false

/-- C8: changing the four-byte-encoded codepoint U+1F600 at the head of the
4-codepoint text `"😀abc"` to the one-byte codepoint `x` yields `"xabc"`:
the byte size shrinks by 3 (the encoded-width difference, the surplus bytes
being removed), the codepoint length shrinks by 0 (one codepoint replaced
by one), and the stored content is valid UTF-8 with no partial codepoint
left behind. -/
theorem modify_string_change_multibyte_shrink :
    Modify_String_Or_Binary c8dst Verb.change (MSrc.char 0x78) {} 0 1
      = Except.ok (StrSeries.mk [0x78, 0x61, 0x62, 0x63] 4 true false, 1) ∧
    c8dst.ser.bytes.length - (4 : Nat)
      = (utf8Encode 0x1F600).length - (utf8Encode 0x78).length ∧
    (StrSeries.mk [0x78, 0x61, 0x62, 0x63] 4 true false).strLen
      = c8dst.ser.strLen ∧
    validUtf8 [0x78, 0x61, 0x62, 0x63] = true :=
  ⟨rfl, by decide, by decide, by decide⟩

/-- C7: for both `Modify_Array` and `Modify_String_Or_Binary`, a null
source on INSERT/APPEND, or a non-positive dup count, mutates nothing and
returns the natural unchanged index — 0 for APPEND, the given destination
index otherwise (for the string form, under the preconditions that rule
out its up-front failures: a writable destination and no mid-codepoint
BINARY! index into a string-aliased series). -/
theorem modify_noop_claims :
    (∀ (h : AHeap) (verb : Verb) (dstId dstIdx0 : Nat) (srcVal : AVal)
      (flags : AMFlags) (dstLen dups : Int),
      ((srcVal = AVal.nulled ∧ verb ≠ Verb.change) ∨ dups ≤ 0) →
      Modify_Array h verb dstId dstIdx0 srcVal flags dstLen dups
        = (h, if verb = Verb.append then 0 else dstIdx0)) ∧
    (∀ (dst : StrVal) (verb : Verb) (src : MSrc) (flags : AMFlags)
      (part dups : Int),
      dst.ser.readonly = false →
      ¬(dst.isBinary = true ∧ dst.ser.isString = true ∧
        0x80 ≤ dst.ser.bytes.getD dst.index 0) →
      ((src = MSrc.nulled ∧ verb ≠ Verb.change) ∨ dups ≤ 0) →
      Modify_String_Or_Binary dst verb src flags part dups
        = Except.ok (dst.ser, if verb = Verb.append then 0 else dst.index)) := by
  constructor
  · intro h verb dstId dstIdx0 srcVal flags dstLen dups hno
    rcases hno with ⟨hn, hnc⟩ | hd
    · have hcond : ¬ (srcVal = AVal.nulled ∧ verb = Verb.change) :=
        fun hc => hnc hc.2
      simp only [Modify_Array, if_neg hcond]
      rw [if_pos (Or.inl hn)]
    · by_cases hcond : srcVal = AVal.nulled ∧ verb = Verb.change
      · simp only [Modify_Array, if_pos hcond]
        rw [if_pos (Or.inr hd)]
      · simp only [Modify_Array, if_neg hcond]
        rw [if_pos (Or.inr hd)]
  · intro dst verb src flags part dups hro hbin hno
    have hro2 : ¬ dst.ser.readonly = true := by simp [hro]
    rcases hno with ⟨hn, hnc⟩ | hd
    · cases verb with
      | change => exact absurd rfl hnc
      | append =>
          simp [Modify_String_Or_Binary, hro, hbin, hn]
          intro h1 h2
          by_contra hge
          rw [List.getD_eq_getElem?_getD] at hbin
          exact hbin ⟨h1, h2, le_of_not_lt hge⟩
      | insert =>
          simp [Modify_String_Or_Binary, hro, hbin, hn]
          intro h1 h2
          by_contra hge
          rw [List.getD_eq_getElem?_getD] at hbin
          exact hbin ⟨h1, h2, le_of_not_lt hge⟩
    · by_cases hn : src = MSrc.nulled
      · cases verb with
        | append =>
            simp [Modify_String_Or_Binary, hro, hbin, hn]
            intro h1 h2
            by_contra hge
            rw [List.getD_eq_getElem?_getD] at hbin
            exact hbin ⟨h1, h2, le_of_not_lt hge⟩
        | insert =>
            simp [Modify_String_Or_Binary, hro, hbin, hn]
            intro h1 h2
            by_contra hge
            rw [List.getD_eq_getElem?_getD] at hbin
            exact hbin ⟨h1, h2, le_of_not_lt hge⟩
        | change =>
          simp only [Modify_String_Or_Binary, if_neg hro2, if_neg hbin]
          rw [if_neg (fun hc => Verb.noConfusion hc.2),
            if_neg (fun hc => Verb.noConfusion hc.2),
            if_pos (Or.inr hd)]
      · have h1 : ¬ (src = MSrc.nulled ∧ verb = Verb.append) :=
          fun hc => hn hc.1
        have h2 : ¬ (src = MSrc.nulled ∧ verb = Verb.insert) :=
          fun hc => hn hc.1
        simp only [Modify_String_Or_Binary, if_neg hro2, if_neg hbin,
          if_neg h1, if_neg h2]
        rw [if_pos (Or.inr hd)]

/-- Closed witness for `modify_noop_claims`: appending NULL to an array
returns 0 with the heap untouched; inserting NULL into a text returns the
value's index with the series untouched. -/
theorem modify_noop_claims_witness :
    (Modify_Array c4heap Verb.append 1 0 AVal.nulled {} 0 1
      = (c4heap, if Verb.append = Verb.append then 0 else 0)) ∧
    (c8dst.ser.readonly = false ∧
      Modify_String_Or_Binary c8dst Verb.insert MSrc.nulled {} 0 5
        = Except.ok (c8dst.ser,
            if Verb.insert = Verb.append then 0 else c8dst.index)) :=
  ⟨modify_noop_claims.1 c4heap Verb.append 1 0 AVal.nulled {} 0 1
     (Or.inl ⟨rfl, by decide⟩),
   ⟨rfl, modify_noop_claims.2 c8dst Verb.insert MSrc.nulled {} 0 5 rfl
     (by decide) (Or.inl ⟨rfl, by decide⟩)⟩⟩
